import Mathlib

set_option maxRecDepth 16000

/-!
Verification development for the PhotoConverter idempotent job-orchestration
engine.  The definitions below are a shallow embedding of the Go source:

* `internal/storage` (ledger rows, `TryStartJob`, `checkExistingJob`,
  `FinalizeJobOK`, `FinalizeJobFailed`, `CleanupInProgress`),
* `internal/config` (`Config.OutputParams`, `Config.OutputParamsHash`),
* `internal/converter` (`Convert`, `BuildDstPath`, `BuildDstPathDedup`),
* `internal/worker` (`Pool.processFile` and its counters),
* the startup sequence of `internal/cli.runConvert`.

The SQLite ledger is modelled as a list of rows; the unique index
`ux_jobs_src` is modelled by making the insert fail exactly when a row with
the same identity tuple is present (an insert of an `in_progress` row can
never violate the partial index `ux_jobs_dedup`, whose predicate requires
`status = 'ok'`).  Statements in Go that depend on the outside world
(process execution, the filesystem, database failures) take the outcome of
that interaction as an explicit argument, and the filesystem is a list of
paths.  Timestamps and autoincrement ids are threaded through as arguments.
-/

namespace PhotoConverter

/-- Status of a ledger row, mirroring `storage.JobStatus` and its three
constants `StatusInProgress`, `StatusOK`, `StatusFailed`. -/
inductive JobStatus where
  | in_progress
  | ok
  | failed
deriving DecidableEq, Repr

/-- One ledger row, mirroring `storage.Job` (pointer-typed columns become
`Option`). -/
structure Job where
  id : Int
  src_path : String
  src_size : Int
  src_mtime : Int
  out_format : String
  out_params : String
  out_params_hash : String
  content_sha256 : Option String
  dst_path : Option String
  status : JobStatus
  error : Option String
  started_at : Option Int
  finished_at : Option Int
deriving DecidableEq, Repr

/-- Mirror of `storage.FileInfo`. -/
structure FileInfo where
  path : String
  size : Int
  mtime : Int
  contentSHA256 : String
deriving DecidableEq, Repr

/-- Mirror of `storage.StartJobResult`. -/
structure StartJobResult where
  started : Bool
  jobID : Int
  skipReason : String
  existingDstPath : String
deriving DecidableEq, Repr

/-- The ledger table: its rows in insertion order. -/
abbrev Ledger := List Job

/-- The identity tuple of a row: the columns of the unique index
`ux_jobs_src` from `migrations.go`. -/
def Job.srcKey (j : Job) : String × Int × Int × String × String :=
  (j.src_path, j.src_size, j.src_mtime, j.out_format, j.out_params_hash)

/-- The row filter used by the identity-tuple lookup in `checkExistingJob`
(`WHERE src_path = ? AND src_size = ? AND src_mtime = ? AND out_format = ?
AND out_params_hash = ?`); the same condition characterises a violation of
`ux_jobs_src` on insert. -/
def srcKeyMatches (info : FileInfo) (outFormat outParamsHash : String) (j : Job) : Bool :=
  decide (j.src_path = info.path ∧ j.src_size = info.size ∧ j.src_mtime = info.mtime ∧
    j.out_format = outFormat ∧ j.out_params_hash = outParamsHash)

/-- The source's literal skip reason for a row already in state `ok`
(the spec's `Skip{reason = "already done"}`). -/
def skipReasonAlreadyDone : String := "уже успешно обработан"

/-- The source's literal skip reason for a row still `in_progress`
(the spec's `Skip{reason = "in flight"}`). -/
def skipReasonInFlight : String := "уже обрабатывается"

/-- The source's literal skip reason for a content duplicate
(the spec's `Skip{reason = "content duplicate"}`). -/
def skipReasonContentDuplicate : String := "дубликат по содержимому"

/-- The source's literal defensive skip reason
(the spec's `Skip{reason = "unknown"}`). -/
def skipReasonUnknown : String := "неизвестная причина"

/-- The row inserted by `TryStartJob`: the `INSERT INTO jobs ...` values.
`content_sha256` is bound to NULL unless `dedupMode` holds and the hash is
nonempty, exactly as in the Go code. -/
def newJob (info : FileInfo) (outFormat outParams outParamsHash : String)
    (dedupMode : Bool) (now nextId : Int) : Job :=
  { id := nextId
    src_path := info.path
    src_size := info.size
    src_mtime := info.mtime
    out_format := outFormat
    out_params := outParams
    out_params_hash := outParamsHash
    content_sha256 := if dedupMode ∧ info.contentSHA256 ≠ "" then some info.contentSHA256 else none
    dst_path := none
    status := .in_progress
    error := none
    started_at := some now
    finished_at := none }

mutual

/-- Sequential model of `Storage.TryStartJob`: attempt the insert; on a
uniqueness violation of `ux_jobs_src` fall back to `checkExistingJob`.
`now` models `time.Now().Unix()` and `nextId` the autoincrement id; both
are threaded through the retry unchanged (the claims under study do not
depend on their freshness). -/
def tryStartJob (l : Ledger) (info : FileInfo)
    (outFormat outParams outParamsHash : String) (dedupMode : Bool)
    (now nextId : Int) : StartJobResult × Ledger :=
  if l.any (srcKeyMatches info outFormat outParamsHash) then
    checkExistingJob l info outFormat outParamsHash dedupMode now nextId
  else
    ({ started := true, jobID := nextId, skipReason := "", existingDstPath := "" },
     l ++ [newJob info outFormat outParams outParamsHash dedupMode now nextId])
termination_by (l.length, 1)
decreasing_by
  apply Prod.Lex.right
  omega

/-- Sequential model of `Storage.checkExistingJob`: look the row up by the
identity tuple; on `ok`/`in_progress` skip; on `failed` delete the row and
re-run `TryStartJob` — passing the literal empty string for `outParams`,
exactly as the source does.  When no identity row is found, fall through to
the dedup lookup and then to the defensive unknown skip. -/
def checkExistingJob (l : Ledger) (info : FileInfo)
    (outFormat outParamsHash : String) (dedupMode : Bool)
    (now nextId : Int) : StartJobResult × Ledger :=
  match hfind : l.find? (srcKeyMatches info outFormat outParamsHash) with
  | some job =>
    match job.status with
    | .ok =>
      ({ started := false, jobID := 0, skipReason := skipReasonAlreadyDone,
         existingDstPath := job.dst_path.getD "" }, l)
    | .in_progress =>
      ({ started := false, jobID := 0, skipReason := skipReasonInFlight,
         existingDstPath := "" }, l)
    | .failed =>
      tryStartJob (l.filter fun j => !(j.id == job.id)) info outFormat "" outParamsHash
        dedupMode now nextId
  | none =>
    if dedupMode ∧ info.contentSHA256 ≠ "" then
      match l.find? (fun j => decide (j.content_sha256 = some info.contentSHA256 ∧
          j.out_format = outFormat ∧ j.out_params_hash = outParamsHash ∧ j.status = .ok)) with
      | some job =>
        match job.dst_path with
        | some dst =>
          ({ started := false, jobID := 0, skipReason := skipReasonContentDuplicate,
             existingDstPath := dst }, l)
        | none =>
          ({ started := false, jobID := 0, skipReason := skipReasonUnknown,
             existingDstPath := "" }, l)
      | none =>
        ({ started := false, jobID := 0, skipReason := skipReasonUnknown,
           existingDstPath := "" }, l)
    else
      ({ started := false, jobID := 0, skipReason := skipReasonUnknown,
         existingDstPath := "" }, l)
termination_by (l.length, 0)
decreasing_by
  apply Prod.Lex.left
  have hmem : job ∈ l := List.mem_of_find?_eq_some hfind
  have h1 : (List.filter (fun j => !(j.id == job.id)) l).length =
      l.countP (fun j => !(j.id == job.id)) :=
    (List.countP_eq_length_filter _ l).symm
  have h2 := List.length_eq_countP_add_countP (l := l) (fun j => !(j.id == job.id))
  have h3 : 0 < l.countP fun a => decide ¬((fun j => !(j.id == job.id)) a = true) :=
    List.countP_pos_iff.mpr ⟨job, hmem, by simp⟩
  simp only at h2 h3
  omega

end

/-- Model of `Storage.FinalizeJobOK`: `UPDATE jobs SET status = 'ok',
dst_path = ?, finished_at = ? WHERE id = ?`. -/
def finalizeJobOK (l : Ledger) (jobID : Int) (dstPath : String) (now : Int) : Ledger :=
  l.map fun j =>
    if j.id = jobID then
      { j with status := .ok, dst_path := some dstPath, finished_at := some now }
    else j

/-- Model of `Storage.FinalizeJobFailed`: `UPDATE jobs SET status = 'failed',
error = ?, finished_at = ? WHERE id = ?`. -/
def finalizeJobFailed (l : Ledger) (jobID : Int) (errMsg : String) (now : Int) : Ledger :=
  l.map fun j =>
    if j.id = jobID then
      { j with status := .failed, error := some errMsg, finished_at := some now }
    else j

/-- The source's literal error text written by the recovery sweep
(the spec's `error = 'interrupted on previous run'`). -/
def interruptedMsg : String := "прервано при предыдущем запуске"

/-- Model of `Storage.CleanupInProgress`: `UPDATE jobs SET status = 'failed',
error = ? WHERE status = 'in_progress'`, returning `RowsAffected`. -/
def cleanupInProgress (l : Ledger) : Nat × Ledger :=
  (l.countP (fun j => decide (j.status = .in_progress)),
   l.map fun j =>
     if j.status = .in_progress then
       { j with status := .failed, error := some interruptedMsg }
     else j)

/-! ## Configuration and the output-params fingerprint (`internal/config`) -/

/-- Mirror of `config.Mode` with its two validated constants `ModeSkip` and
`ModeDedup`. -/
inductive Mode where
  | skip
  | dedup
deriving DecidableEq, Repr

/-- Mirror of `config.OutputFormat` with its seven declared constants. -/
inductive OutputFormat where
  | webp
  | jpg
  | png
  | avif
  | tiff
  | heic
  | jxl
deriving DecidableEq, Repr

/-- The string carried by each `config.OutputFormat` constant. -/
def OutputFormat.str : OutputFormat → String
  | .webp => "webp"
  | .jpg => "jpg"
  | .png => "png"
  | .avif => "avif"
  | .tiff => "tiff"
  | .heic => "heic"
  | .jxl => "jxl"

/-- The fields of `config.Config` read by the components under study
(fingerprint, admission, path derivation, worker pool, memory limiter). -/
structure Config where
  inputDir : String
  outputDir : String
  outputFormat : OutputFormat
  quality : Int
  workers : Int
  dbPath : String
  mode : Mode
  keepTree : Bool
  dryRun : Bool
  stripMetadata : Bool
  verbose : Bool
  maxWidth : Int
  maxHeight : Int
  maxMemoryMB : Int
deriving DecidableEq, Repr

/-- ASCII decimal digit, as produced by Go's `strconv`. -/
def digitCharGo (d : Nat) : Char := Char.ofNat (48 + d)

/-- Decimal representation of a natural number, as produced by Go's
`strconv` (and hence by `encoding/json` for integers). -/
def natDecimal (n : Nat) : List Char :=
  if n < 10 then [digitCharGo n]
  else natDecimal (n / 10) ++ [digitCharGo (n % 10)]
termination_by n
decreasing_by
  exact Nat.div_lt_self (by omega) (by omega)

/-- Decimal representation of an integer, as produced by Go's `strconv`. -/
def intDecimal (i : Int) : List Char :=
  match i with
  | .ofNat m => natDecimal m
  | .negSucc m => '-' :: natDecimal (m + 1)

/-- Decimal string of an integer. -/
def intStr (i : Int) : String := String.mk (intDecimal i)

/-- Model of `Config.OutputParams`: `encoding/json` marshals a
`map[string]interface{}` with its keys in sorted order (`format`,
`max_height`, `max_width`, `quality`, `strip_metadata`), integers in
decimal and booleans as `true`/`false`. -/
def Config.outputParams (c : Config) : String :=
  "\x7b\"format\":\"" ++ c.outputFormat.str ++ "\",\"max_height\":" ++ intStr c.maxHeight ++
  ",\"max_width\":" ++ intStr c.maxWidth ++ ",\"quality\":" ++ intStr c.quality ++
  ",\"strip_metadata\":" ++ (if c.stripMetadata then "true" else "false") ++ "\x7d"

/-! ### SHA-256 (`crypto/sha256`) over the UTF-8 bytes of a string -/

/-- UTF-8 encoding of one code point. -/
def utf8EncodeChar (c : Char) : List Nat :=
  let n := c.toNat
  if n < 128 then [n]
  else if n < 2048 then [192 + n / 64, 128 + n % 64]
  else if n < 65536 then [224 + n / 4096, 128 + n / 64 % 64, 128 + n % 64]
  else [240 + n / 262144, 128 + n / 4096 % 64, 128 + n / 64 % 64, 128 + n % 64]

/-- UTF-8 bytes of a string. -/
def utf8Bytes (s : String) : List Nat := (s.data.map utf8EncodeChar).flatten

/-- Truncation to a 32-bit word. -/
def w32 (x : Nat) : Nat := x % 4294967296

/-- Right rotation of a 32-bit word. -/
def rotr32 (n x : Nat) : Nat := w32 ((x >>> n) ||| (x <<< (32 - n)))

/-- The 64 SHA-256 round constants. -/
def sha256K : List Nat :=
  [1116352408, 1899447441, 3049323471, 3921009573, 961987163, 1508970993,
   2453635748, 2870763221, 3624381080, 310598401, 607225278, 1426881987,
   1925078388, 2162078206, 2614888103, 3248222580, 3835390401, 4022224774,
   264347078, 604807628, 770255983, 1249150122, 1555081692, 1996064986,
   2554220882, 2821834349, 2952996808, 3210313671, 3336571891, 3584528711,
   113926993, 338241895, 666307205, 773529912, 1294757372, 1396182291,
   1695183700, 1986661051, 2177026350, 2456956037, 2730485921, 2820302411,
   3259730800, 3345764771, 3516065817, 3600352804, 4094571909, 275423344,
   430227734, 506948616, 659060556, 883997877, 958139571, 1322822218,
   1537002063, 1747873779, 1955562222, 2024104815, 2227730452, 2361852424,
   2428436474, 2756734187, 3204031479, 3329325298]

/-- The eight SHA-256 initial hash values. -/
def sha256Init : List Nat :=
  [1779033703, 3144134277, 1013904242, 2773480762,
   1359893119, 2600822924, 528734635, 1541459225]

/-- Big-endian byte representation of `n` in `k` bytes. -/
def beBytes : Nat → Nat → List Nat
  | 0, _ => []
  | k + 1, n => beBytes k (n / 256) ++ [n % 256]

/-- SHA-256 padding: a `0x80` byte, zeros, and the 64-bit big-endian bit
length, to a multiple of 64 bytes. -/
def sha256Pad (bytes : List Nat) : List Nat :=
  let len := bytes.length
  let z := (64 - (len + 9) % 64) % 64
  bytes ++ [128] ++ List.replicate z 0 ++ beBytes 8 (len * 8)

/-- Big-endian 32-bit words from a byte list. -/
def bytesToWords : List Nat → List Nat
  | b0 :: b1 :: b2 :: b3 :: rest => (((b0 * 256 + b1) * 256 + b2) * 256 + b3) :: bytesToWords rest
  | _ => []

/-- The 64-byte chunks of a byte list. -/
def chunks64 (bs : List Nat) : List (List Nat) :=
  if bs.isEmpty then [] else bs.take 64 :: chunks64 (bs.drop 64)
termination_by bs.length
decreasing_by
  simp only [List.length_drop]
  cases bs with
  | nil => simp_all
  | cons b bs => simp; omega

/-- SHA-256 σ₀. -/
def ssig0 (x : Nat) : Nat := w32 ((rotr32 7 x ^^^ rotr32 18 x) ^^^ (x >>> 3))

/-- SHA-256 σ₁. -/
def ssig1 (x : Nat) : Nat := w32 ((rotr32 17 x ^^^ rotr32 19 x) ^^^ (x >>> 10))

/-- SHA-256 Σ₀. -/
def bsig0 (x : Nat) : Nat := w32 ((rotr32 2 x ^^^ rotr32 13 x) ^^^ rotr32 22 x)

/-- SHA-256 Σ₁. -/
def bsig1 (x : Nat) : Nat := w32 ((rotr32 6 x ^^^ rotr32 11 x) ^^^ rotr32 25 x)

/-- Extend the 16 message words of a chunk to 64 schedule words; `k` counts
the words still to be produced. -/
def scheduleAux : Nat → List Nat → List Nat
  | 0, ws => ws
  | k + 1, ws =>
    let i := ws.length
    let next := w32 (ssig1 (ws.getD (i - 2) 0) + ws.getD (i - 7) 0 +
      ssig0 (ws.getD (i - 15) 0) + ws.getD (i - 16) 0)
    scheduleAux k (ws ++ [next])

/-- Working state of the SHA-256 compression loop. -/
structure Sha256State where
  a : Nat
  b : Nat
  c : Nat
  d : Nat
  e : Nat
  f : Nat
  g : Nat
  hh : Nat
deriving Repr

/-- One round of the SHA-256 compression loop. -/
def sha256Round (s : Sha256State) (kw : Nat × Nat) : Sha256State :=
  let t1 := w32 (s.hh + bsig1 s.e + ((s.e &&& s.f) ^^^ ((s.e ^^^ 4294967295) &&& s.g)) + kw.1 + kw.2)
  let t2 := w32 (bsig0 s.a + ((s.a &&& s.b) ^^^ (s.a &&& s.c) ^^^ (s.b &&& s.c)))
  { a := w32 (t1 + t2), b := s.a, c := s.b, d := s.c,
    e := w32 (s.d + t1), f := s.e, g := s.f, hh := s.g }

/-- Process one 64-byte chunk against the running hash values. -/
def sha256Chunk (hs : List Nat) (chunk : List Nat) : List Nat :=
  let ws := scheduleAux 48 (bytesToWords chunk)
  let s0 : Sha256State :=
    { a := hs.getD 0 0, b := hs.getD 1 0, c := hs.getD 2 0, d := hs.getD 3 0,
      e := hs.getD 4 0, f := hs.getD 5 0, g := hs.getD 6 0, hh := hs.getD 7 0 }
  let s := (sha256K.zip ws).foldl sha256Round s0
  [w32 (hs.getD 0 0 + s.a), w32 (hs.getD 1 0 + s.b), w32 (hs.getD 2 0 + s.c),
   w32 (hs.getD 3 0 + s.d), w32 (hs.getD 4 0 + s.e), w32 (hs.getD 5 0 + s.f),
   w32 (hs.getD 6 0 + s.g), w32 (hs.getD 7 0 + s.hh)]

/-- SHA-256 digest (32 bytes) of a byte list. -/
def sha256Bytes (bytes : List Nat) : List Nat :=
  let hs := (chunks64 (sha256Pad bytes)).foldl sha256Chunk sha256Init
  (hs.map (beBytes 4)).flatten

/-- A lowercase hex digit, as in Go's `encoding/hex` table
`0123456789abcdef`. -/
def hexDigitChar (d : Nat) : Char :=
  if d < 10 then Char.ofNat (48 + d) else Char.ofNat (87 + d)

/-- Lowercase hex encoding of a byte list, mirroring `hex.EncodeToString`. -/
def hexEncode (bs : List Nat) : String :=
  String.mk ((bs.map fun b => [hexDigitChar (b / 16 % 16), hexDigitChar (b % 16)]).flatten)

/-- Model of `Config.OutputParamsHash`: lowercase hex of the SHA-256 digest
of the UTF-8 bytes of `OutputParams`. -/
def Config.outputParamsHash (c : Config) : String :=
  hexEncode (sha256Bytes (utf8Bytes c.outputParams))

/-! ## Path helpers (`path/filepath` on slash-separated paths) -/

/-- The characters after the final dot of the final path element, in
reverse order: the backwards scan `filepath.Ext` performs. -/
def extTail (p : String) : List Char :=
  p.data.reverse.takeWhile fun c => !(c == '.') && !(c == '/')

/-- Model of `filepath.Ext`: the suffix of the final path element starting
at its final dot, or the empty string when that element has no dot. -/
def filepathExt (p : String) : String :=
  match p.data.reverse.drop (extTail p).length with
  | '.' :: _ => String.mk ('.' :: (extTail p).reverse)
  | _ => ""

/-- Model of `strings.TrimSuffix`. -/
def trimSuffix (s suf : String) : String :=
  if suf.data.isSuffixOf s.data then String.mk (s.data.take (s.data.length - suf.data.length))
  else s

/-- Model of `filepath.Base` for paths without a trailing separator. -/
def filepathBase (p : String) : String :=
  if p.data.isEmpty then "."
  else String.mk ((p.data.reverse.takeWhile fun c => !(c == '/')).reverse)

/-- Model of `filepath.Join` for cleaned nonempty components. -/
def filepathJoin (a b : String) : String := a ++ "/" ++ b

/-- Model of `filepath.Rel` for the case the Feeder produces: the target
lies strictly below the base directory, so `Rel` returns the path suffix
after `base + "/"`.  `none` models the error return, on which
`BuildDstPath` falls back to the basename. -/
def filepathRelUnder (base target : String) : Option String :=
  if (base ++ "/").data.isPrefixOf target.data then
    some (String.mk (target.data.drop (base ++ "/").data.length))
  else none

/-! ## Atomic converter driver (`internal/converter.Convert`) -/

/-- Outcomes of the interactions `Convert` has with the outside world:
directory creation, the external `vips` run (a deadline expiry surfaces as
a failed `cmd.Run` like any non-zero exit), its captured standard error,
and the final rename. -/
structure ConvertEnv where
  mkdirOk : Bool
  mkdirErrText : String
  runOk : Bool
  runErrText : String
  stderrOut : String
  renameOk : Bool
  renameErrText : String
deriving DecidableEq, Repr

/-- Mirror of `converter.ConvertResult`; `errMsg` is the message of the
`Error` field (empty when the error is nil), `stderrStr` its `Stderr`
field.  The wall-clock `Duration` is not modelled. -/
structure ConvResult where
  success : Bool
  dstPath : String
  errMsg : String
  stderrStr : String
deriving DecidableEq, Repr

/-- Filesystem update for a created or renamed-over path. -/
def fsAdd (p : String) (fs : List String) : List String :=
  if p ∈ fs then fs else fs ++ [p]

/-- Filesystem update for `os.Remove` (also covers removing a path that was
never created). -/
def fsRemove (p : String) (fs : List String) : List String :=
  fs.filter fun q => !(q == p)

/-- The sibling temp path `Convert` writes into: `dstBase + ".converting" +
dstExt` where `dstExt = filepath.Ext(dstPath)` and `dstBase` is `dstPath`
with that suffix trimmed. -/
def convTmpPath (dstPath : String) : String :=
  trimSuffix dstPath (filepathExt dstPath) ++ ".converting" ++ filepathExt dstPath

/-- Model of `Converter.Convert`: create the destination directory, run the
external binary into the sibling temp path, and rename temp → final on
success; on a failed run or a failed rename remove the temp.  The `vips`
option suffix (`[Q=..,strip]`) only decorates the argument given to the
binary, which still writes to the temp path, so it is not modelled. -/
def convert (env : ConvertEnv) (fs : List String) (dstPath : String) :
    ConvResult × List String :=
  if !env.mkdirOk then
    ({ success := false, dstPath := "",
       errMsg := "не удалось создать директорию: " ++ env.mkdirErrText, stderrStr := "" }, fs)
  else
    let tmpPath := convTmpPath dstPath
    if !env.runOk then
      let errMsg :=
        if env.stderrOut.length > 0 then env.runErrText ++ ": " ++ env.stderrOut
        else env.runErrText
      ({ success := false, dstPath := "", errMsg := "vips copy failed: " ++ errMsg,
         stderrStr := env.stderrOut }, fsRemove tmpPath fs)
    else
      let fs1 := fsAdd tmpPath fs
      if !env.renameOk then
        ({ success := false, dstPath := "",
           errMsg := "не удалось переименовать " ++ tmpPath ++ " -> " ++ dstPath ++ ": " ++
             env.renameErrText,
           stderrStr := "" }, fsRemove tmpPath fs1)
      else
        ({ success := true, dstPath := dstPath, errMsg := "", stderrStr := env.stderrOut },
         fsAdd dstPath (fsRemove tmpPath fs1))

/-- Model of `Converter.BuildDstPath`. -/
def buildDstPath (cfg : Config) (srcPath : String) : String :=
  let relPath :=
    match filepathRelUnder cfg.inputDir srcPath with
    | some r => r
    | none => filepathBase srcPath
  if cfg.keepTree then
    let ext := filepathExt relPath
    filepathJoin cfg.outputDir (trimSuffix relPath ext ++ "." ++ cfg.outputFormat.str)
  else
    let baseName := filepathBase srcPath
    let ext := filepathExt baseName
    filepathJoin cfg.outputDir (trimSuffix baseName ext ++ "." ++ cfg.outputFormat.str)

/-- Model of `Converter.BuildDstPathDedup`: the first 16 characters of the
content hash (hex, so bytes coincide with characters), dot, format. -/
def buildDstPathDedup (cfg : Config) (contentSHA256 : String) : String :=
  let shortHash :=
    if contentSHA256.data.length > 16 then String.mk (contentSHA256.data.take 16)
    else contentSHA256
  filepathJoin cfg.outputDir (shortHash ++ "." ++ cfg.outputFormat.str)

/-! ## Worker pool (`internal/worker.Pool.processFile`) -/

/-- The four counters of `worker.Stats` that the claims concern; the two
byte counters are outside the model. -/
structure Stats where
  processed : Nat
  skipped : Nat
  failed : Nat
  total : Nat
deriving DecidableEq, Repr

/-- Shared state a run threads through the pool: the ledger, the output
filesystem, the counters, and the next autoincrement id. -/
structure RunState where
  ledger : Ledger
  fs : List String
  stats : Stats
  nextId : Int
deriving Repr

/-- One scanned file together with the outcomes of every external
interaction its processing performs: content hashing, a possible storage
error during admission, the memory-limiter wait, the conversion
environment, and a possible storage error on the success finalize. -/
structure FileTask where
  path : String
  size : Int
  mtime : Int
  hashOk : Bool
  hashValue : String
  admissionDbError : Bool
  memAcquireOk : Bool
  conv : ConvertEnv
  finalizeOkFails : Bool
  now : Int
deriving Repr

/-- The destination path `processFile` computes for a started job. -/
def dstPathFor (cfg : Config) (t : FileTask) : String :=
  if cfg.mode = .dedup ∧ ¬cfg.keepTree then buildDstPathDedup cfg t.hashValue
  else buildDstPath cfg t.path

/-- Model of `Pool.processFile`, following the Go control flow branch by
branch: count the file; in dedup mode hash it (failure counts as failed
with no ledger contact); run the admission protocol (a storage error
counts as failed); a skip counts as skipped; in dry-run finalize ok with
the predicted destination (the finalize error is discarded) and count as
processed; a memory-limiter error finalizes failed; then convert, finalize
ok or failed, and count processed or failed (a failed ok-finalize counts
as failed). -/
def processFile (cfg : Config) (st : RunState) (t : FileTask) : RunState :=
  let st := { st with stats := { st.stats with total := st.stats.total + 1 } }
  if cfg.mode = .dedup ∧ ¬t.hashOk then
    { st with stats := { st.stats with failed := st.stats.failed + 1 } }
  else
    let info : FileInfo :=
      { path := t.path, size := t.size, mtime := t.mtime,
        contentSHA256 := if cfg.mode = .dedup then t.hashValue else "" }
    if t.admissionDbError then
      { st with stats := { st.stats with failed := st.stats.failed + 1 } }
    else
      let res := tryStartJob st.ledger info cfg.outputFormat.str cfg.outputParams
        cfg.outputParamsHash (decide (cfg.mode = .dedup)) t.now st.nextId
      let st :=
        { st with
          ledger := res.2
          nextId := if res.1.started then st.nextId + 1 else st.nextId }
      if !res.1.started then
        { st with stats := { st.stats with skipped := st.stats.skipped + 1 } }
      else
        let dstPath := dstPathFor cfg t
        if cfg.dryRun then
          let l2 :=
            if t.finalizeOkFails then st.ledger
            else finalizeJobOK st.ledger res.1.jobID dstPath t.now
          { st with
            ledger := l2
            stats := { st.stats with processed := st.stats.processed + 1 } }
        else if cfg.maxMemoryMB > 0 ∧ ¬t.memAcquireOk then
          { st with
            ledger := finalizeJobFailed st.ledger res.1.jobID "context canceled" t.now
            stats := { st.stats with failed := st.stats.failed + 1 } }
        else
          let conv := convert t.conv st.fs dstPath
          let st := { st with fs := conv.2 }
          if !conv.1.success then
            { st with
              ledger := finalizeJobFailed st.ledger res.1.jobID conv.1.errMsg t.now
              stats := { st.stats with failed := st.stats.failed + 1 } }
          else if t.finalizeOkFails then
            { st with stats := { st.stats with failed := st.stats.failed + 1 } }
          else
            { st with
              ledger := finalizeJobOK st.ledger res.1.jobID dstPath t.now
              stats := { st.stats with processed := st.stats.processed + 1 } }

/-- The pool run over the files the Feeder emits, in the serialized order
in which the workers' ledger operations commit. -/
def runPool (cfg : Config) (st : RunState) (tasks : List FileTask) : RunState :=
  tasks.foldl (processFile cfg) st

/-! ## Startup sequence (`internal/cli.runConvert`) -/

/-- Outcomes of the startup interactions of `runConvert` relevant here:
whether `CleanupInProgress` fails, and whether `CheckVipsHealth` passes. -/
structure ConvertRunEnv where
  sweepFails : Bool
  vipsHealthy : Bool
deriving DecidableEq, Repr

/-- Model of the `runConvert` sequence after the storage is open: run the
recovery sweep (on failure only a warning is printed and the run
continues with the unswept ledger), then check the converter binary
(failure aborts, `none`), then run the pool.  The sweep therefore executes
before any worker starts. -/
def runConvertModel (cfg : Config) (env : ConvertRunEnv) (tasks : List FileTask)
    (st0 : RunState) : Option RunState :=
  let st1 :=
    if env.sweepFails then st0
    else { st0 with ledger := (cleanupInProgress st0.ledger).2 }
  if !env.vipsHealthy then none
  else some (runPool cfg st1 tasks)

/-! ## Properties and fixtures -/

/-- Invariant 1 of the spec: at most one row per identity tuple (any two
distinct positions of the ledger carry different identity tuples). -/
def SrcUnique (l : Ledger) : Prop := l.Pairwise fun a b => a.srcKey ≠ b.srcKey

/-- Ledger states reachable from the empty table through the engine's
operations: admission attempts, the two finalizers, and the recovery
sweep. -/
inductive Reachable : Ledger → Prop where
  | init : Reachable []
  | tryStart (info : FileInfo) (f p h : String) (d : Bool) (now id : Int) {l : Ledger} :
      Reachable l → Reachable (tryStartJob l info f p h d now id).2
  | finalizeOk (id : Int) (dst : String) (now : Int) {l : Ledger} :
      Reachable l → Reachable (finalizeJobOK l id dst now)
  | finalizeFailed (id : Int) (e : String) (now : Int) {l : Ledger} :
      Reachable l → Reachable (finalizeJobFailed l id e now)
  | sweep {l : Ledger} : Reachable l → Reachable (cleanupInProgress l).2

/-- Substring test (the Go source carries its own `contains` helper with
this meaning). -/
def strContains (s sub : String) : Bool := decide (sub.data <:+: s.data)

/-- Artifact–ledger consistency relative to a set `safe` of expected
destination paths: every `ok` row records a destination that exists on the
filesystem and lies in `safe`. -/
def okArtifactsOn (safe : List String) (st : RunState) : Prop :=
  ∀ j ∈ st.ledger, j.status = .ok → ∃ d, j.dst_path = some d ∧ d ∈ st.fs ∧ d ∈ safe

/-- Decimal value of a digit string (used to invert `natDecimal`). -/
def decVal (cs : List Char) : Nat := cs.foldl (fun a c => a * 10 + (c.toNat - 48)) 0

/-- The spec's wording for path derivation: a path with its extension
replaced by the output format (named after the spec, for comparison with
the source's `BuildDstPath`). -/
def specReplaceExt (p fmtStr : String) : String :=
  trimSuffix p (filepathExt p) ++ "." ++ fmtStr

/-- Fixture: a source descriptor. -/
def wInfo : FileInfo := { path := "/in/a.jpg", size := 100, mtime := 5, contentSHA256 := "" }

/-- Fixture: a `failed` row for `wInfo`'s identity tuple. -/
def wJobFailed : Job :=
  { id := 1, src_path := "/in/a.jpg", src_size := 100, src_mtime := 5, out_format := "webp",
    out_params := "ORIGINAL_PARAMS", out_params_hash := "HH", content_sha256 := none,
    dst_path := none, status := .failed, error := some "boom", started_at := some 1,
    finished_at := some 2 }

/-- Fixture: an `ok` row for `wInfo`'s identity tuple. -/
def wJobOK : Job := { wJobFailed with status := .ok, dst_path := some "/out/a.webp" }

/-- Fixture: an `in_progress` row for `wInfo`'s identity tuple. -/
def wJobInProgress : Job := { wJobFailed with status := .in_progress }

/-- Fixture: a configuration (skip mode, keep-tree, no dry run). -/
def wCfg : Config :=
  { inputDir := "/in", outputDir := "/out", outputFormat := .webp, quality := 75, workers := 4,
    dbPath := "/out/.photoconverter/state.sqlite", mode := .skip, keepTree := true,
    dryRun := false, stripMetadata := true, verbose := false, maxWidth := 1920, maxHeight := 0,
    maxMemoryMB := 0 }

/-- Fixture: `wCfg` in dry-run mode. -/
def wCfgDry : Config := { wCfg with dryRun := true }

/-- Fixture: `wCfg` with only non-byte-affecting options changed. -/
def wCfgAlt : Config :=
  { wCfg with workers := 9, dryRun := true, verbose := true, dbPath := "elsewhere" }

/-- Fixture: a conversion environment in which everything succeeds. -/
def wEnvOK : ConvertEnv :=
  { mkdirOk := true, mkdirErrText := "", runOk := true, runErrText := "", stderrOut := "",
    renameOk := true, renameErrText := "" }

/-- Fixture: a conversion environment in which the rename fails while the
binary produced standard-error output. -/
def wEnvRenameFail : ConvertEnv :=
  { wEnvOK with renameOk := false, renameErrText := "permission denied", stderrOut := "WARNXYZ" }

/-- Fixture: a task whose every external interaction succeeds. -/
def wTask : FileTask :=
  { path := "/in/a.jpg", size := 100, mtime := 5, hashOk := true, hashValue := "",
    admissionDbError := false, memAcquireOk := true, conv := wEnvOK, finalizeOkFails := false,
    now := 9 }

/-- Fixture: an initial run state over an empty ledger and filesystem. -/
def wState0 : RunState :=
  { ledger := [], fs := [], stats := { processed := 0, skipped := 0, failed := 0, total := 0 },
    nextId := 1 }

/-- Fixture: a run state whose ledger still holds an `in_progress` row from
an interrupted previous run. -/
def wStateIP : RunState := { wState0 with ledger := [wJobInProgress], nextId := 2 }

/-! ## Basic lemmas about the admission protocol -/

theorem srcKeyMatches_iff {info : FileInfo} {f h : String} {j : Job} :
    srcKeyMatches info f h j = true ↔ j.srcKey = (info.path, info.size, info.mtime, f, h) := by
  simp [srcKeyMatches, Job.srcKey]

theorem newJob_srcKey (info : FileInfo) (f p h : String) (d : Bool) (now id : Int) :
    (newJob info f p h d now id).srcKey = (info.path, info.size, info.mtime, f, h) := rfl

theorem tryStartJob_cases (l : Ledger) (info : FileInfo) (f p h : String) (d : Bool)
    (now id : Int) :
    (l.any (srcKeyMatches info f h) = false ∧
      tryStartJob l info f p h d now id =
        ({ started := true, jobID := id, skipReason := "", existingDstPath := "" },
         l ++ [newJob info f p h d now id])) ∨
    (l.any (srcKeyMatches info f h) = true ∧
      tryStartJob l info f p h d now id = checkExistingJob l info f h d now id) := by
  cases hany : l.any (srcKeyMatches info f h) with
  | false =>
    left
    exact ⟨rfl, by rw [tryStartJob]; simp [hany]⟩
  | true =>
    right
    exact ⟨rfl, by rw [tryStartJob]; simp [hany]⟩

theorem checkExistingJob_cases (l : Ledger) (info : FileInfo) (f h : String) (d : Bool)
    (now id : Int) :
    (∃ job, l.find? (srcKeyMatches info f h) = some job ∧
      ((job.status = .ok ∧ checkExistingJob l info f h d now id =
          ({ started := false, jobID := 0, skipReason := skipReasonAlreadyDone,
             existingDstPath := job.dst_path.getD "" }, l)) ∨
       (job.status = .in_progress ∧ checkExistingJob l info f h d now id =
          ({ started := false, jobID := 0, skipReason := skipReasonInFlight,
             existingDstPath := "" }, l)) ∨
       (job.status = .failed ∧ checkExistingJob l info f h d now id =
          tryStartJob (l.filter fun j => !(j.id == job.id)) info f "" h d now id))) ∨
    (l.find? (srcKeyMatches info f h) = none ∧
      (checkExistingJob l info f h d now id).2 = l ∧
      (checkExistingJob l info f h d now id).1.started = false) := by
  rw [checkExistingJob]
  split
  next job hfind =>
    left
    refine ⟨job, hfind, ?_⟩
    cases hst : job.status with
    | ok => exact Or.inl ⟨rfl, rfl⟩
    | in_progress => exact Or.inr (Or.inl ⟨rfl, rfl⟩)
    | failed => exact Or.inr (Or.inr ⟨rfl, rfl⟩)
  next hfind =>
    right
    refine ⟨hfind, ?_, ?_⟩ <;> (repeat' split) <;> rfl

theorem length_filter_ne_id_lt {l : Ledger} {job : Job} (hmem : job ∈ l) :
    (l.filter fun j => !(j.id == job.id)).length < l.length := by
  have h1 : (List.filter (fun j => !(j.id == job.id)) l).length =
      l.countP (fun j => !(j.id == job.id)) :=
    (List.countP_eq_length_filter _ l).symm
  have h2 := List.length_eq_countP_add_countP (l := l) (fun j => !(j.id == job.id))
  have h3 : 0 < l.countP fun a => decide ¬((fun j => !(j.id == job.id)) a = true) :=
    List.countP_pos_iff.mpr ⟨job, hmem, by simp⟩
  simp only at h2 h3
  omega

theorem srcUnique_append_new {l : Ledger} {info : FileInfo} {f p h : String} {d : Bool}
    {now id : Int} (hu : SrcUnique l) (hany : l.any (srcKeyMatches info f h) = false) :
    SrcUnique (l ++ [newJob info f p h d now id]) := by
  rw [SrcUnique, List.pairwise_append]
  refine ⟨hu, List.pairwise_singleton _ _, ?_⟩
  intro a ha b hb
  have hb' : b = newJob info f p h d now id := by simpa using hb
  subst hb'
  rw [newJob_srcKey]
  intro hkey
  exact absurd (List.any_eq_true.mpr ⟨a, ha, srcKeyMatches_iff.mpr hkey⟩) (by simp [hany])

theorem srcUnique_filter {l : Ledger} (p : Job → Bool) (hu : SrcUnique l) :
    SrcUnique (l.filter p) :=
  List.Pairwise.sublist (List.filter_sublist l) hu

theorem srcUnique_map_of_srcKey_eq {l : Ledger} {f : Job → Job}
    (hf : ∀ j, (f j).srcKey = j.srcKey) (hu : SrcUnique l) : SrcUnique (l.map f) := by
  rw [SrcUnique, List.pairwise_map]
  exact hu.imp fun hab => by rw [hf, hf]; exact hab

theorem tryStartJob_srcUnique_aux :
    ∀ (n : Nat) (l : Ledger) (info : FileInfo) (f p h : String) (d : Bool) (now id : Int),
      l.length ≤ n → SrcUnique l → SrcUnique (tryStartJob l info f p h d now id).2 := by
  intro n
  induction n with
  | zero =>
    intro l info f p h d now id hlen hu
    have hl : l = [] := List.eq_nil_of_length_eq_zero (Nat.le_zero.mp hlen)
    subst hl
    rcases tryStartJob_cases [] info f p h d now id with ⟨_, heq⟩ | ⟨hany, _⟩
    · rw [heq]
      exact srcUnique_append_new hu (by simp)
    · simp at hany
  | succ n ih =>
    intro l info f p h d now id hlen hu
    rcases tryStartJob_cases l info f p h d now id with ⟨hany, heq⟩ | ⟨hany, heq⟩
    · rw [heq]
      exact srcUnique_append_new hu hany
    · rw [heq]
      rcases checkExistingJob_cases l info f h d now id with
        ⟨job, hfind, hcase⟩ | ⟨_, hsnd, _⟩
      · rcases hcase with ⟨_, heq2⟩ | ⟨_, heq2⟩ | ⟨_, heq2⟩
        · rw [heq2]
          exact hu
        · rw [heq2]
          exact hu
        · rw [heq2]
          have hlt := length_filter_ne_id_lt (List.mem_of_find?_eq_some hfind)
          exact ih _ info f "" h d now id (by omega) (srcUnique_filter _ hu)
      · rw [hsnd]
        exact hu

/-- C1: every ledger state reachable through any sequence of `TryStartJob`,
`FinalizeJobOK`, `FinalizeJobFailed` and the recovery sweep contains at
most one row per identity tuple `(src_path, src_size, src_mtime,
out_format, out_params_hash)`. -/
theorem ledger_src_identity_unique {l : Ledger} (hr : Reachable l) : SrcUnique l := by
  induction hr with
  | init => exact List.Pairwise.nil
  | tryStart info f p h d now id _ ih =>
    exact tryStartJob_srcUnique_aux _ _ info f p h d now id le_rfl ih
  | finalizeOk id dst now _ ih =>
    exact srcUnique_map_of_srcKey_eq
      (fun j => by by_cases hj : j.id = id <;> simp [Job.srcKey, hj]) ih
  | finalizeFailed id e now _ ih =>
    exact srcUnique_map_of_srcKey_eq
      (fun j => by by_cases hj : j.id = id <;> simp [Job.srcKey, hj]) ih
  | sweep _ ih =>
    exact srcUnique_map_of_srcKey_eq
      (fun j => by by_cases hj : j.status = .in_progress <;> simp [Job.srcKey, hj]) ih

/-- Witness for C1 at a concrete reachable ledger. -/
theorem ledger_src_identity_unique_witness :
    SrcUnique (tryStartJob [] wInfo "webp" "P" "H" false 9 1).2 :=
  ledger_src_identity_unique (Reachable.tryStart wInfo "webp" "P" "H" false 9 1 Reachable.init)

theorem srcKey_eq_of_mem {l : Ledger} (hu : SrcUnique l) {a b : Job}
    (ha : a ∈ l) (hb : b ∈ l) (hk : a.srcKey = b.srcKey) : a = b := by
  induction l with
  | nil => cases ha
  | cons x xs ih =>
    have hu' := List.pairwise_cons.mp hu
    rcases List.mem_cons.mp ha with rfl | ha' <;> rcases List.mem_cons.mp hb with rfl | hb'
    · rfl
    · exact absurd hk (hu'.1 b hb')
    · exact absurd hk.symm (hu'.1 a ha')
    · exact ih hu'.2 ha' hb'

/-- C9: on a source-unique ledger, the failed-row branch of the admission
protocol runs exactly once: `TryStartJob` deletes the found `failed` row
and the immediate retry's insert succeeds, so the recursive
`TryStartJob → checkExistingJob → TryStartJob` chain stops after one
retry, producing a fresh `in_progress` row. -/
theorem tryStartJob_failed_retry_once (l : Ledger) (info : FileInfo) (f p h : String)
    (d : Bool) (now id : Int) (job : Job) (hu : SrcUnique l)
    (hfind : l.find? (srcKeyMatches info f h) = some job) (hst : job.status = .failed) :
    tryStartJob l info f p h d now id =
      ({ started := true, jobID := id, skipReason := "", existingDstPath := "" },
       (l.filter fun j => !(j.id == job.id)) ++ [newJob info f "" h d now id]) := by
  have hmem := List.mem_of_find?_eq_some hfind
  have hjobkey : srcKeyMatches info f h job = true := List.find?_some hfind
  have hany : l.any (srcKeyMatches info f h) = true := List.any_eq_true.mpr ⟨job, hmem, hjobkey⟩
  rcases tryStartJob_cases l info f p h d now id with ⟨hf', _⟩ | ⟨_, heq⟩
  · rw [hf'] at hany
    cases hany
  · rw [heq]
    rcases checkExistingJob_cases l info f h d now id with
      ⟨job', hfind', hcase⟩ | ⟨hnone, _, _⟩
    · rw [hfind'] at hfind
      injection hfind with hjj
      subst hjj
      rcases hcase with ⟨hok, _⟩ | ⟨hip, _⟩ | ⟨_, heq2⟩
      · simp [hst] at hok
      · simp [hst] at hip
      · rw [heq2]
        rcases tryStartJob_cases (l.filter fun j => !(j.id == job'.id)) info f "" h d now id
          with ⟨_, heq3⟩ | ⟨hany3, _⟩
        · rw [heq3]
        · exfalso
          rcases List.any_eq_true.mp hany3 with ⟨j, hjmem, hjkey⟩
          have hjl : j ∈ l := List.mem_of_mem_filter hjmem
          have hkeep := List.of_mem_filter hjmem
          have hkeys : j.srcKey = job'.srcKey := by
            rw [srcKeyMatches_iff.mp hjkey, srcKeyMatches_iff.mp hjobkey]
          have : j = job' := srcKey_eq_of_mem hu hjl hmem hkeys
          subst this
          simp at hkeep
    · rw [hnone] at hfind
      cases hfind

/-- Witness for C9 at a concrete one-row ledger holding a failed row. -/
theorem tryStartJob_failed_retry_once_witness :
    tryStartJob [wJobFailed] wInfo "webp" "P" "HH" false 9 2 =
      ({ started := true, jobID := 2, skipReason := "", existingDstPath := "" },
       ([wJobFailed].filter fun j => !(j.id == wJobFailed.id)) ++
         [newJob wInfo "webp" "" "HH" false 9 2]) :=
  tryStartJob_failed_retry_once [wJobFailed] wInfo "webp" "P" "HH" false 9 2 wJobFailed
    (by simp [SrcUnique]) (by decide) rfl

/-- C2 (divergence evidence): when the identity lookup finds a `failed`
row, the retry re-inserts with `out_params` equal to the empty string, not
the original `out_params` that was passed to `TryStartJob`. -/
theorem tryStartJob_retry_drops_out_params :
    ((tryStartJob [wJobFailed] wInfo "webp" "ORIGINAL_PARAMS" "HH" false 9 2).2.map
       Job.out_params = [""]) ∧ ("ORIGINAL_PARAMS" : String) ≠ "" := by
  refine ⟨?_, by decide⟩
  rw [tryStartJob]
  rw [show ([wJobFailed].any (srcKeyMatches wInfo "webp" "HH")) = true by decide]
  rw [if_pos rfl]
  rw [checkExistingJob]
  rw [show ([wJobFailed].find? (srcKeyMatches wInfo "webp" "HH")) = some wJobFailed by decide]
  show (tryStartJob ([wJobFailed].filter fun j => !(j.id == wJobFailed.id)) wInfo "webp" ""
    "HH" false 9 2).2.map Job.out_params = [""]
  rw [show ([wJobFailed].filter fun j => !(j.id == wJobFailed.id)) = [] by decide]
  rw [tryStartJob]
  simp [newJob]

/-- C6: when the admission insert hits the unique index and the identity
lookup finds an `ok` row, the result is a skip carrying the source's
already-done reason and that row's `dst_path` (empty for NULL); when it
finds an `in_progress` row, the result is a skip carrying the in-flight
reason; in both cases the ledger is returned unchanged. -/
theorem tryStartJob_skip_done_and_in_flight (l : Ledger) (info : FileInfo) (f p h : String)
    (d : Bool) (now id : Int) (job : Job)
    (hfind : l.find? (srcKeyMatches info f h) = some job) :
    (job.status = .ok →
      tryStartJob l info f p h d now id =
        ({ started := false, jobID := 0, skipReason := skipReasonAlreadyDone,
           existingDstPath := job.dst_path.getD "" }, l)) ∧
    (job.status = .in_progress →
      tryStartJob l info f p h d now id =
        ({ started := false, jobID := 0, skipReason := skipReasonInFlight,
           existingDstPath := "" }, l)) := by
  have hmem := List.mem_of_find?_eq_some hfind
  have hjobkey : srcKeyMatches info f h job = true := List.find?_some hfind
  have hany : l.any (srcKeyMatches info f h) = true := List.any_eq_true.mpr ⟨job, hmem, hjobkey⟩
  rcases tryStartJob_cases l info f p h d now id with ⟨hf', _⟩ | ⟨_, heq⟩
  · rw [hf'] at hany
    cases hany
  · rcases checkExistingJob_cases l info f h d now id with
      ⟨job', hfind', hcase⟩ | ⟨hnone, _, _⟩
    · rw [hfind'] at hfind
      injection hfind with hjj
      subst hjj
      constructor
      · intro hok
        rcases hcase with ⟨_, heq2⟩ | ⟨hip, _⟩ | ⟨hfl, _⟩
        · rw [heq, heq2]
        · simp [hok] at hip
        · simp [hok] at hfl
      · intro hip
        rcases hcase with ⟨hok, _⟩ | ⟨_, heq2⟩ | ⟨hfl, _⟩
        · simp [hip] at hok
        · rw [heq, heq2]
        · simp [hip] at hfl
    · rw [hnone] at hfind
      cases hfind

/-- Witness for C6 at concrete one-row ledgers holding an `ok` row and an
`in_progress` row. -/
theorem tryStartJob_skip_done_and_in_flight_witness :
    (tryStartJob [wJobOK] wInfo "webp" "P" "HH" false 9 2).1.skipReason =
      skipReasonAlreadyDone ∧
    (tryStartJob [wJobInProgress] wInfo "webp" "P" "HH" false 9 2).1.skipReason =
      skipReasonInFlight := by
  constructor
  · rw [(tryStartJob_skip_done_and_in_flight [wJobOK] wInfo "webp" "P" "HH" false 9 2 wJobOK
      (by decide)).1 rfl]
  · rw [(tryStartJob_skip_done_and_in_flight [wJobInProgress] wInfo "webp" "P" "HH" false 9 2
      wJobInProgress (by decide)).2 rfl]

/-- C3 counterexample: when the recovery sweep fails, `runConvert` merely
prints a warning and proceeds to the pool with the unswept ledger — the run
is not aborted, contradicting the claim's abort requirement. -/
theorem recovery_sweep_failure_does_not_abort :
    (runConvertModel wCfg { sweepFails := true, vipsHealthy := true } [] wStateIP).isSome =
      true ∧
    runConvertModel wCfg { sweepFails := true, vipsHealthy := true } [] wStateIP =
      some wStateIP := by
  constructor <;> rfl

/-- C3 (amended): the recovery sweep returns the number of `in_progress`
rows, rewrites exactly those rows to `failed` with the fixed interrupted
error text while leaving every other row unchanged, leaves no
`in_progress` row behind, and runs before the pool processes any file;
when the sweep fails the run continues (with only a warning) on the
unswept ledger rather than aborting. -/
theorem recovery_sweep_spec (l : Ledger) (cfg : Config) (tasks : List FileTask)
    (st0 : RunState) :
    ((cleanupInProgress l).1 = (l.filter fun j => decide (j.status = .in_progress)).length) ∧
    (∀ (i : Nat) (j : Job), l[i]? = some j →
      (cleanupInProgress l).2[i]? =
        some (if j.status = .in_progress then
          { j with status := .failed, error := some interruptedMsg } else j)) ∧
    (∀ j ∈ (cleanupInProgress l).2, j.status ≠ .in_progress) ∧
    (runConvertModel cfg { sweepFails := false, vipsHealthy := true } tasks st0 =
      some (runPool cfg { st0 with ledger := (cleanupInProgress st0.ledger).2 } tasks)) ∧
    (runConvertModel cfg { sweepFails := true, vipsHealthy := true } tasks st0 =
      some (runPool cfg st0 tasks)) := by
  refine ⟨?_, ?_, ?_, rfl, rfl⟩
  · rw [cleanupInProgress]
    exact List.countP_eq_length_filter _ l
  · intro i j hji
    simp [cleanupInProgress, List.getElem?_map, hji]
  · intro j hj
    rcases List.mem_map.mp hj with ⟨a, _, rfl⟩
    by_cases ha : a.status = .in_progress <;> simp [ha]

/-- Witness for C3 at a concrete one-row ledger. -/
theorem recovery_sweep_spec_witness :
    (cleanupInProgress [wJobInProgress]).1 = 1 ∧
    (cleanupInProgress [wJobInProgress]).2[0]? =
      some { wJobInProgress with status := .failed, error := some interruptedMsg } := by
  have h := recovery_sweep_spec [wJobInProgress] wCfg [] wState0
  constructor
  · rw [h.1]
    decide
  · rw [h.2.1 0 wJobInProgress (by decide)]
    rfl

/-! ## Lemmas about the converter driver -/

theorem mem_fsRemove {q p : String} {fs : List String} :
    q ∈ fsRemove p fs ↔ q ∈ fs ∧ q ≠ p := by
  simp [fsRemove, List.mem_filter]

theorem mem_fsAdd {q p : String} {fs : List String} :
    q ∈ fsAdd p fs ↔ q ∈ fs ∨ q = p := by
  unfold fsAdd
  split
  · rename_i hp
    constructor
    · exact Or.inl
    · rintro (hq | rfl)
      · exact hq
      · exact hp
  · simp [List.mem_append]

theorem takeWhile_append_cons {α : Type} (p : α → Bool) (l₁ : List α) (c : α) (l₂ : List α)
    (h1 : ∀ x ∈ l₁, p x = true) (h2 : p c = false) :
    (l₁ ++ c :: l₂).takeWhile p = l₁ := by
  induction l₁ with
  | nil => simp [List.takeWhile_cons, h2]
  | cons x xs ih =>
    have hx : p x = true := h1 x (by simp)
    simp [List.takeWhile_cons, hx]
    exact ih fun y hy => h1 y (by simp [hy])

theorem filepathExt_clean (p : String) :
    filepathExt p = "" ∨
    ∃ tail : List Char, filepathExt p = String.mk ('.' :: tail) ∧
      ∀ c ∈ tail, (!(c == '.') && !(c == '/')) = true := by
  unfold filepathExt
  split
  · right
    refine ⟨(extTail p).reverse, rfl, ?_⟩
    intro c hc
    have hc2 : c ∈ extTail p := List.mem_reverse.mp hc
    unfold extTail at hc2
    have hc3 := List.mem_takeWhile_imp hc2
    exact hc3
  · left
    rfl

theorem filepathExt_append (s : String) (tail : List Char)
    (hclean : ∀ c ∈ tail, (!(c == '.') && !(c == '/')) = true) :
    filepathExt (s ++ String.mk ('.' :: tail)) = String.mk ('.' :: tail) := by
  have h1 : (s ++ String.mk ('.' :: tail)).data.reverse =
      tail.reverse ++ '.' :: s.data.reverse := by
    rw [String.data_append]
    rw [show (String.mk ('.' :: tail)).data = '.' :: tail from rfl]
    rw [List.reverse_append, List.reverse_cons, List.append_assoc]
    simp
  have hclean' : ∀ x ∈ tail.reverse, (!(x == '.') && !(x == '/')) = true := by
    intro x hx
    exact hclean x (List.mem_reverse.mp hx)
  have h2 : extTail (s ++ String.mk ('.' :: tail)) = tail.reverse := by
    unfold extTail
    rw [h1]
    exact takeWhile_append_cons _ _ _ _ hclean' (by decide)
  unfold filepathExt
  rw [h2, h1, List.drop_left]
  simp

theorem trimSuffix_length_ge (s suf : String) :
    s.length ≤ (trimSuffix s suf).length + suf.length := by
  unfold trimSuffix
  split
  · show s.length ≤ (String.mk (s.data.take (s.data.length - suf.data.length))).length + _
    have : (String.mk (s.data.take (s.data.length - suf.data.length))).length =
        min (s.data.length - suf.data.length) s.data.length := by
      show (s.data.take (s.data.length - suf.data.length)).length = _
      exact List.length_take _ _
    rw [this, min_eq_left (Nat.sub_le _ _)]
    show s.data.length ≤ _ + suf.data.length
    omega
  · omega

theorem convTmpPath_ne (dst : String) : convTmpPath dst ≠ dst := by
  intro h
  have hlen := congrArg String.length h
  rw [convTmpPath, String.length_append, String.length_append] at hlen
  have h11 : (".converting" : String).length = 11 := rfl
  have := trimSuffix_length_ge dst (filepathExt dst)
  omega

/-- C7 counterexample: on a rename failure the returned error carries the
rename error, not the binary's standard-error capture, and the result's
stderr field is empty — refuting the claim that every failure result's
error carries the stderr capture. -/
theorem convert_rename_failure_drops_stderr :
    (convert wEnvRenameFail [] "/out/a.webp").1.success = false ∧
    strContains (convert wEnvRenameFail [] "/out/a.webp").1.errMsg "WARNXYZ" = false ∧
    (convert wEnvRenameFail [] "/out/a.webp").1.stderrStr = "" := by
  refine ⟨rfl, by decide, rfl⟩

/-- C7 (amended): the driver writes to the sibling temp path (the
destination with `.converting` inserted before its extension, preserving
the extension); on a failed or timed-out run of the binary it removes the
temp, leaves every other path — in particular the final path — untouched,
and returns a failure whose error carries the stderr capture; on a rename
failure it removes the temp, leaves other paths untouched, and returns a
failure whose error carries the rename error while its stderr field is
empty; on success the final path exists and the temp does not. -/
theorem convert_atomic_write_spec (env : ConvertEnv) (fs : List String) (dst : String) :
    (filepathExt dst ≠ "" → filepathExt (convTmpPath dst) = filepathExt dst) ∧
    (env.mkdirOk = true → env.runOk = false →
      ((convert env fs dst).1.success = false ∧
       convTmpPath dst ∉ (convert env fs dst).2 ∧
       (∀ q, q ≠ convTmpPath dst → ((q ∈ (convert env fs dst).2) ↔ q ∈ fs)) ∧
       (env.stderrOut.length > 0 →
         strContains (convert env fs dst).1.errMsg env.stderrOut = true) ∧
       (convert env fs dst).1.stderrStr = env.stderrOut)) ∧
    (env.mkdirOk = true → env.runOk = true → env.renameOk = false →
      ((convert env fs dst).1.success = false ∧
       convTmpPath dst ∉ (convert env fs dst).2 ∧
       (∀ q, q ≠ convTmpPath dst → ((q ∈ (convert env fs dst).2) ↔ q ∈ fs)) ∧
       strContains (convert env fs dst).1.errMsg env.renameErrText = true ∧
       (convert env fs dst).1.stderrStr = "")) ∧
    (env.mkdirOk = true → env.runOk = true → env.renameOk = true →
      ((convert env fs dst).1.success = true ∧
       dst ∈ (convert env fs dst).2 ∧
       convTmpPath dst ∉ (convert env fs dst).2)) := by
  obtain ⟨emk, emkt, ero, ert, eso, eren, erent⟩ := env
  refine ⟨?_, ?_, ?_, ?_⟩
  · intro hne
    rcases filepathExt_clean dst with h0 | ⟨tail, hsh, hclean⟩
    · exact absurd h0 hne
    · rw [convTmpPath, hsh]
      exact filepathExt_append _ tail hclean
  · intro hm hr
    simp only at hm hr
    subst hm
    subst hr
    refine ⟨rfl, ?_, ?_, ?_, rfl⟩
    · rw [show (convert ⟨true, emkt, false, ert, eso, eren, erent⟩ fs dst).2 =
          fsRemove (convTmpPath dst) fs from rfl, mem_fsRemove]
      simp
    · intro q hq
      rw [show (convert ⟨true, emkt, false, ert, eso, eren, erent⟩ fs dst).2 =
          fsRemove (convTmpPath dst) fs from rfl, mem_fsRemove]
      simp [hq]
    · intro hlen
      rw [show (convert ⟨true, emkt, false, ert, eso, eren, erent⟩ fs dst).1.errMsg =
          "vips copy failed: " ++ (if eso.length > 0 then ert ++ ": " ++ eso else ert)
          from rfl]
      rw [if_pos hlen]
      have hsuf : eso.data <:+ ("vips copy failed: " ++ (ert ++ ": " ++ eso)).data := by
        rw [String.data_append, String.data_append]
        rw [← List.append_assoc]
        exact List.suffix_append _ _
      simp only [strContains, decide_eq_true_eq]
      exact hsuf.isInfix
  · intro hm hr hren
    simp only at hm hr hren
    subst hm
    subst hr
    subst hren
    refine ⟨rfl, ?_, ?_, ?_, rfl⟩
    · rw [show (convert ⟨true, emkt, true, ert, eso, false, erent⟩ fs dst).2 =
          fsRemove (convTmpPath dst) (fsAdd (convTmpPath dst) fs) from rfl, mem_fsRemove]
      simp
    · intro q hq
      rw [show (convert ⟨true, emkt, true, ert, eso, false, erent⟩ fs dst).2 =
          fsRemove (convTmpPath dst) (fsAdd (convTmpPath dst) fs) from rfl, mem_fsRemove,
        mem_fsAdd]
      simp [hq]
    · have hsuf : erent.data <:+
          ("не удалось переименовать " ++ convTmpPath dst ++ " -> " ++ dst ++ ": " ++
            erent).data := by
        rw [String.data_append]
        exact List.suffix_append _ _
      simp only [strContains, decide_eq_true_eq]
      exact hsuf.isInfix
  · intro hm hr hren
    simp only at hm hr hren
    subst hm
    subst hr
    subst hren
    refine ⟨rfl, ?_, ?_⟩
    · rw [show (convert ⟨true, emkt, true, ert, eso, true, erent⟩ fs dst).2 =
          fsAdd dst (fsRemove (convTmpPath dst) (fsAdd (convTmpPath dst) fs)) from rfl,
        mem_fsAdd]
      exact Or.inr rfl
    · rw [show (convert ⟨true, emkt, true, ert, eso, true, erent⟩ fs dst).2 =
          fsAdd dst (fsRemove (convTmpPath dst) (fsAdd (convTmpPath dst) fs)) from rfl,
        mem_fsAdd, mem_fsRemove]
      intro hcon
      rcases hcon with ⟨_, hne⟩ | heq
      · exact hne rfl
      · exact convTmpPath_ne dst heq

/-- Witness for C7 at a concrete environment and destination. -/
theorem convert_atomic_write_spec_witness :
    filepathExt (convTmpPath "/out/a.webp") = filepathExt "/out/a.webp" ∧
    (convert wEnvOK [] "/out/a.webp").1.success = true ∧
    "/out/a.webp" ∈ (convert wEnvOK [] "/out/a.webp").2 ∧
    convTmpPath "/out/a.webp" ∉ (convert wEnvOK [] "/out/a.webp").2 := by
  have h := convert_atomic_write_spec wEnvOK [] "/out/a.webp"
  have hs := h.2.2.2 rfl rfl rfl
  exact ⟨h.1 (by decide), hs.1, hs.2.1, hs.2.2⟩

/-! ## Destination-path derivation -/

theorem filepathRelUnder_append (base rel : String) :
    filepathRelUnder base (base ++ "/" ++ rel) = some rel := by
  unfold filepathRelUnder
  rw [show (base ++ "/" ++ rel).data = (base ++ "/").data ++ rel.data from
    String.data_append _ _]
  rw [if_pos ( List.isPrefixOf_iff_prefix.mpr ( List.prefix_append _ _))]
  rw [List.drop_left]

/-- C8: for an accepted source file below the input directory, the
destination is: with `keep_tree`, the output dir joined with the relative
path with its extension replaced by the output format; without
`keep_tree` in dedup mode, the output dir joined with the first 16 hex
characters of the content hash dot format; without `keep_tree` in skip
mode, the output dir joined with the source basename with its extension
replaced by the output format. -/
theorem dstPath_derivation (cfg : Config) (t : FileTask) (rel : String)
    (hpath : t.path = cfg.inputDir ++ "/" ++ rel) :
    (cfg.keepTree = true →
      dstPathFor cfg t =
        filepathJoin cfg.outputDir (specReplaceExt rel cfg.outputFormat.str)) ∧
    (cfg.keepTree = false → cfg.mode = .dedup → t.hashValue.data.length = 64 →
      dstPathFor cfg t =
        filepathJoin cfg.outputDir
          (String.mk (t.hashValue.data.take 16) ++ "." ++ cfg.outputFormat.str)) ∧
    (cfg.keepTree = false → cfg.mode = .skip →
      dstPathFor cfg t =
        filepathJoin cfg.outputDir
          (specReplaceExt (filepathBase t.path) cfg.outputFormat.str)) := by
  refine ⟨?_, ?_, ?_⟩
  · intro hkt
    rw [dstPathFor, if_neg (by simp [hkt])]
    rw [buildDstPath, hpath, filepathRelUnder_append]
    rw [if_pos (by rw [hkt])]
    rfl
  · intro hkt hmode h64
    rw [dstPathFor, if_pos ⟨hmode, by rw [hkt]; exact Bool.false_ne_true⟩]
    rw [buildDstPathDedup, if_pos (by rw [h64]; omega)]
  · intro hkt hmode
    rw [dstPathFor, if_neg (by simp [hmode])]
    rw [buildDstPath, hpath, filepathRelUnder_append]
    rw [if_neg (by rw [hkt]; exact Bool.false_ne_true)]
    rw [← hpath]
    rfl

/-- Witness for C8 at a concrete configuration and file. -/
theorem dstPath_derivation_witness :
    dstPathFor wCfg wTask = filepathJoin "/out" (specReplaceExt "a.jpg" "webp") :=
  (dstPath_derivation wCfg wTask "a.jpg" rfl).1 rfl

/-! ## Counter bookkeeping in the pool -/

theorem processFile_counters_step (cfg : Config) (t : FileTask) (st : RunState) :
    (processFile cfg st t).stats.total = st.stats.total + 1 ∧
    (((processFile cfg st t).stats.processed = st.stats.processed + 1 ∧
      (processFile cfg st t).stats.skipped = st.stats.skipped ∧
      (processFile cfg st t).stats.failed = st.stats.failed) ∨
     ((processFile cfg st t).stats.processed = st.stats.processed ∧
      (processFile cfg st t).stats.skipped = st.stats.skipped + 1 ∧
      (processFile cfg st t).stats.failed = st.stats.failed) ∨
     ((processFile cfg st t).stats.processed = st.stats.processed ∧
      (processFile cfg st t).stats.skipped = st.stats.skipped ∧
      (processFile cfg st t).stats.failed = st.stats.failed + 1)) := by
  simp only [processFile]
  repeat' split
  all_goals simp

/-- C10: every file taken from the channel bumps `Total` exactly once and
exactly one of `Processed`, `Skipped`, `Failed` exactly once, on every
control path; consequently, at pool completion
`Processed + Skipped + Failed = Total`, and `Total` counts the files. -/
theorem pool_counters_balance (cfg : Config) (tasks : List FileTask) (st0 : RunState) :
    (∀ t st, (processFile cfg st t).stats.total = st.stats.total + 1 ∧
      (((processFile cfg st t).stats.processed = st.stats.processed + 1 ∧
        (processFile cfg st t).stats.skipped = st.stats.skipped ∧
        (processFile cfg st t).stats.failed = st.stats.failed) ∨
       ((processFile cfg st t).stats.processed = st.stats.processed ∧
        (processFile cfg st t).stats.skipped = st.stats.skipped + 1 ∧
        (processFile cfg st t).stats.failed = st.stats.failed) ∨
       ((processFile cfg st t).stats.processed = st.stats.processed ∧
        (processFile cfg st t).stats.skipped = st.stats.skipped ∧
        (processFile cfg st t).stats.failed = st.stats.failed + 1))) ∧
    (st0.stats.processed + st0.stats.skipped + st0.stats.failed = st0.stats.total →
      ((runPool cfg st0 tasks).stats.processed + (runPool cfg st0 tasks).stats.skipped +
          (runPool cfg st0 tasks).stats.failed = (runPool cfg st0 tasks).stats.total ∧
        (runPool cfg st0 tasks).stats.total = st0.stats.total + tasks.length)) := by
  refine ⟨fun t st => processFile_counters_step cfg t st, ?_⟩
  intro hbal
  induction tasks generalizing st0 with
  | nil => exact ⟨hbal, rfl⟩
  | cons t ts ih =>
    have hstep := processFile_counters_step cfg t st0
    have hbal' : (processFile cfg st0 t).stats.processed +
        (processFile cfg st0 t).stats.skipped + (processFile cfg st0 t).stats.failed =
        (processFile cfg st0 t).stats.total := by
      rcases hstep.2 with ⟨h1, h2, h3⟩ | ⟨h1, h2, h3⟩ | ⟨h1, h2, h3⟩ <;>
        rw [h1, h2, h3, hstep.1] <;> omega
    have := ih (processFile cfg st0 t) hbal'
    refine ⟨this.1, ?_⟩
    show (runPool cfg (processFile cfg st0 t) ts).stats.total = st0.stats.total + (ts.length + 1)
    rw [this.2, hstep.1]
    omega

/-- Witness for C10 at a concrete run. -/
theorem pool_counters_balance_witness :
    (runPool wCfg wState0 [wTask]).stats.processed + (runPool wCfg wState0 [wTask]).stats.skipped +
        (runPool wCfg wState0 [wTask]).stats.failed = (runPool wCfg wState0 [wTask]).stats.total ∧
    (runPool wCfg wState0 [wTask]).stats.total = 1 :=
  (pool_counters_balance wCfg [wTask] wState0).2 rfl

/-! ## The canonical fingerprint serialization -/

theorem intStr_data (i : Int) : (intStr i).data = intDecimal i := rfl

theorem digitCharGo_toNat {d : Nat} (h : d < 10) : (digitCharGo d).toNat = 48 + d := by
  unfold digitCharGo
  interval_cases d <;> decide

theorem natDecimal_digits (n : Nat) : ∀ c ∈ natDecimal n, 48 ≤ c.toNat ∧ c.toNat ≤ 57 := by
  induction n using Nat.strong_induction_on with
  | _ n ih =>
    rw [natDecimal]
    split
    · next h =>
      intro c hc
      rw [List.mem_singleton] at hc
      subst hc
      rw [digitCharGo_toNat h]
      omega
    · next h =>
      intro c hc
      rw [List.mem_append] at hc
      rcases hc with hc | hc
      · exact ih (n / 10) (Nat.div_lt_self (by omega) (by omega)) c hc
      · rw [List.mem_singleton] at hc
        subst hc
        rw [digitCharGo_toNat (Nat.mod_lt n (by omega))]
        have := Nat.mod_lt n (show 0 < 10 by omega)
        omega

theorem decVal_natDecimal (n : Nat) : decVal (natDecimal n) = n := by
  induction n using Nat.strong_induction_on with
  | _ n ih =>
    rw [natDecimal]
    split
    · next h =>
      show decVal [digitCharGo n] = n
      rw [decVal]
      simp [digitCharGo_toNat h]
    · next h =>
      show decVal (natDecimal (n / 10) ++ [digitCharGo (n % 10)]) = n
      rw [decVal, List.foldl_append]
      have h1 : List.foldl (fun a c => a * 10 + (c.toNat - 48)) 0 (natDecimal (n / 10)) =
          n / 10 := ih (n / 10) (Nat.div_lt_self (by omega) (by omega))
      rw [h1]
      simp only [List.foldl_cons, List.foldl_nil]
      rw [digitCharGo_toNat (Nat.mod_lt n (by omega))]
      have := Nat.div_add_mod n 10
      omega

theorem natDecimal_inj {m n : Nat} (h : natDecimal m = natDecimal n) : m = n := by
  rw [← decVal_natDecimal m, ← decVal_natDecimal n, h]

theorem natDecimal_ne_nil (n : Nat) : natDecimal n ≠ [] := by
  rw [natDecimal]
  split <;> simp

theorem intDecimal_inj {i1 i2 : Int} (h : intDecimal i1 = intDecimal i2) : i1 = i2 := by
  cases i1 with
  | ofNat m =>
    cases i2 with
    | ofNat n =>
      rw [intDecimal, intDecimal] at h
      rw [natDecimal_inj h]
    | negSucc n =>
      rw [intDecimal, intDecimal] at h
      have hm : '-' ∈ natDecimal m := by
        rw [h]
        exact List.mem_cons_self _ _
      have := natDecimal_digits m '-' hm
      simp at this
  | negSucc m =>
    cases i2 with
    | ofNat n =>
      rw [intDecimal, intDecimal] at h
      have hm : '-' ∈ natDecimal n := by
        rw [← h]
        exact List.mem_cons_self _ _
      have := natDecimal_digits n '-' hm
      simp at this
    | negSucc n =>
      rw [intDecimal, intDecimal] at h
      injection h with _ ht
      have := natDecimal_inj ht
      have hmn : m = n := by omega
      rw [hmn]

theorem intDecimal_ne_comma (i : Int) : ∀ c ∈ intDecimal i, c ≠ ',' := by
  intro c hc heq
  subst heq
  cases i with
  | ofNat m =>
    have := natDecimal_digits m _ hc
    simp at this
  | negSucc m =>
    rw [intDecimal] at hc
    rcases List.mem_cons.mp hc with h | h
    · cases h
    · have := natDecimal_digits (m + 1) _ h
      simp at this

theorem append_delim_inj {d : Char} :
    ∀ (l1 l2 r1 r2 : List Char), (∀ c ∈ l1, c ≠ d) → (∀ c ∈ l2, c ≠ d) →
      l1 ++ d :: r1 = l2 ++ d :: r2 → l1 = l2 ∧ r1 = r2 := by
  intro l1
  induction l1 with
  | nil =>
    intro l2 r1 r2 _ h2 heq
    cases l2 with
    | nil => simpa using heq
    | cons y ys =>
      rw [List.nil_append, List.cons_append] at heq
      injection heq with hy _
      exact absurd hy.symm (h2 y (by simp))
  | cons x xs ih =>
    intro l2 r1 r2 h1 h2 heq
    cases l2 with
    | nil =>
      rw [List.nil_append, List.cons_append] at heq
      injection heq with hx _
      exact absurd hx (h1 x (by simp))
    | cons y ys =>
      rw [List.cons_append, List.cons_append] at heq
      injection heq with hxy htl
      subst hxy
      have := ih ys r1 r2 (fun c hc => h1 c (by simp [hc])) (fun c hc => h2 c (by simp [hc]))
        htl
      exact ⟨by rw [this.1], this.2⟩

theorem outputFormat_str_no_quote (f : OutputFormat) : ∀ c ∈ f.str.data, c ≠ '"' := by
  cases f <;> decide

theorem outputFormat_str_inj {f1 f2 : OutputFormat} (h : f1.str = f2.str) : f1 = f2 := by
  cases f1 <;> cases f2 <;> revert h <;> decide

theorem string_ext {s t : String} (h : s.data = t.data) : s = t := by
  cases s
  cases t
  simp_all

theorem outputParams_injective {c1 c2 : Config}
    (heq : c1.outputParams = c2.outputParams) :
    c1.outputFormat = c2.outputFormat ∧ c1.quality = c2.quality ∧
    c1.stripMetadata = c2.stripMetadata ∧ c1.maxWidth = c2.maxWidth ∧
    c1.maxHeight = c2.maxHeight := by
  have hd := congrArg String.data heq
  rw [Config.outputParams, Config.outputParams] at hd
  simp only [String.data_append, intStr_data, apply_ite String.data,
    show ("\",\"max_height\":" : String).data = '"' :: (",\"max_height\":" : String).data
      from rfl,
    show (",\"max_width\":" : String).data = ',' :: ("\"max_width\":" : String).data from rfl,
    show (",\"quality\":" : String).data = ',' :: ("\"quality\":" : String).data from rfl,
    show (",\"strip_metadata\":" : String).data =
      ',' :: ("\"strip_metadata\":" : String).data from rfl,
    List.append_assoc, List.cons_append, List.nil_append, List.cons.injEq,
    eq_self_iff_true, true_and] at hd
  obtain ⟨hf, hrest⟩ := append_delim_inj _ _ _ _ (outputFormat_str_no_quote c1.outputFormat)
    (outputFormat_str_no_quote c2.outputFormat) hd
  have hfmt := outputFormat_str_inj (string_ext hf)
  simp only [List.cons.injEq, eq_self_iff_true, true_and] at hrest
  obtain ⟨hmh, hrest2⟩ := append_delim_inj _ _ _ _ (intDecimal_ne_comma _)
    (intDecimal_ne_comma _) hrest
  have hmheq := intDecimal_inj hmh
  simp only [List.cons.injEq, eq_self_iff_true, true_and] at hrest2
  obtain ⟨hmw, hrest3⟩ := append_delim_inj _ _ _ _ (intDecimal_ne_comma _)
    (intDecimal_ne_comma _) hrest2
  have hmweq := intDecimal_inj hmw
  simp only [List.cons.injEq, eq_self_iff_true, true_and] at hrest3
  obtain ⟨hq, hrest4⟩ := append_delim_inj _ _ _ _ (intDecimal_ne_comma _)
    (intDecimal_ne_comma _) hrest3
  have hqeq := intDecimal_inj hq
  simp only [List.cons.injEq, eq_self_iff_true, true_and] at hrest4
  have hstrip : c1.stripMetadata = c2.stripMetadata := by
    by_cases hs1 : c1.stripMetadata <;> by_cases hs2 : c2.stripMetadata <;>
      simp [hs1, hs2] at hrest4 ⊢
  exact ⟨hfmt, hqeq, hstrip, hmweq, hmheq⟩

/-- C5: the output-params fingerprint is deterministic and discriminating:
the canonical serialization depends on exactly the byte-affecting keys
(format, quality, strip_metadata, max_width, max_height) — two
configurations produce the same serialization precisely when those keys
agree, regardless of every other option (workers, dry_run, verbosity,
db_path, ...) — and agreement of those keys yields an identical
`OutputParamsHash` digest. -/
theorem outputParams_fingerprint_spec (c1 c2 : Config) :
    (c1.outputParams = c2.outputParams ↔
      (c1.outputFormat = c2.outputFormat ∧ c1.quality = c2.quality ∧
       c1.stripMetadata = c2.stripMetadata ∧ c1.maxWidth = c2.maxWidth ∧
       c1.maxHeight = c2.maxHeight)) ∧
    ((c1.outputFormat = c2.outputFormat ∧ c1.quality = c2.quality ∧
      c1.stripMetadata = c2.stripMetadata ∧ c1.maxWidth = c2.maxWidth ∧
      c1.maxHeight = c2.maxHeight) → c1.outputParamsHash = c2.outputParamsHash) := by
  have hmpr : (c1.outputFormat = c2.outputFormat ∧ c1.quality = c2.quality ∧
      c1.stripMetadata = c2.stripMetadata ∧ c1.maxWidth = c2.maxWidth ∧
      c1.maxHeight = c2.maxHeight) → c1.outputParams = c2.outputParams := by
    rintro ⟨h1, h2, h3, h4, h5⟩
    rw [Config.outputParams, Config.outputParams, h1, h2, h3, h4, h5]
  refine ⟨⟨fun h => outputParams_injective h, hmpr⟩, fun h => ?_⟩
  rw [Config.outputParamsHash, Config.outputParamsHash, hmpr h]

/-- Witness for C5: two configurations agreeing on the byte-affecting keys
but differing in workers, dry-run, verbosity and DB path have equal
serializations and digests. -/
theorem outputParams_fingerprint_spec_witness :
    wCfg.outputParamsHash = wCfgAlt.outputParamsHash :=
  (outputParams_fingerprint_spec wCfg wCfgAlt).2 ⟨rfl, rfl, rfl, rfl, rfl⟩

/-! ## Artifact–ledger consistency -/

theorem newJob_status (info : FileInfo) (f p h : String) (d : Bool) (now id : Int) :
    (newJob info f p h d now id).status = .in_progress := rfl

theorem tryStartJob_ok_mem_aux :
    ∀ (n : Nat) (l : Ledger) (info : FileInfo) (f p h : String) (d : Bool) (now id : Int),
      l.length ≤ n → ∀ j ∈ (tryStartJob l info f p h d now id).2, j.status = .ok → j ∈ l := by
  intro n
  induction n with
  | zero =>
    intro l info f p h d now id hlen j hj hok
    have hl : l = [] := List.eq_nil_of_length_eq_zero (Nat.le_zero.mp hlen)
    subst hl
    rcases tryStartJob_cases [] info f p h d now id with ⟨_, heq⟩ | ⟨hany, _⟩
    · rw [heq] at hj
      rcases List.mem_append.mp hj with h' | h'
      · exact h'
      · rw [List.mem_singleton] at h'
        subst h'
        rw [newJob_status] at hok
        cases hok
    · simp at hany
  | succ n ih =>
    intro l info f p h d now id hlen j hj hok
    rcases tryStartJob_cases l info f p h d now id with ⟨_, heq⟩ | ⟨_, heq⟩
    · rw [heq] at hj
      rcases List.mem_append.mp hj with h' | h'
      · exact h'
      · rw [List.mem_singleton] at h'
        subst h'
        rw [newJob_status] at hok
        cases hok
    · rw [heq] at hj
      rcases checkExistingJob_cases l info f h d now id with
        ⟨job, hfind, hcase⟩ | ⟨_, hsnd, _⟩
      · rcases hcase with ⟨_, heq2⟩ | ⟨_, heq2⟩ | ⟨_, heq2⟩
        · rw [heq2] at hj
          exact hj
        · rw [heq2] at hj
          exact hj
        · rw [heq2] at hj
          have hlt := length_filter_ne_id_lt (List.mem_of_find?_eq_some hfind)
          have := ih _ info f "" h d now id (by omega) j hj hok
          exact List.mem_of_mem_filter this
      · rw [hsnd] at hj
        exact hj

theorem mem_finalizeJobFailed_ok {l : Ledger} {id : Int} {e : String} {now : Int} {j : Job}
    (hj : j ∈ finalizeJobFailed l id e now) (hok : j.status = .ok) : j ∈ l := by
  rcases List.mem_map.mp hj with ⟨a, ha, rfl⟩
  by_cases hid : a.id = id
  · simp [hid] at hok
  · simpa [hid] using ha

theorem mem_finalizeJobOK_ok {l : Ledger} {id : Int} {dst : String} {now : Int} {j : Job}
    (hj : j ∈ finalizeJobOK l id dst now) :
    (j ∈ l) ∨ j.dst_path = some dst := by
  rcases List.mem_map.mp hj with ⟨a, ha, rfl⟩
  by_cases hid : a.id = id
  · right
    simp [hid]
  · left
    simpa [hid] using ha

theorem convert_mem_fs (env : ConvertEnv) (fs : List String) (dst q : String)
    (hq : q ∈ fs) (hne : q ≠ convTmpPath dst) : q ∈ (convert env fs dst).2 := by
  unfold convert
  repeat' split
  all_goals simp [mem_fsRemove, mem_fsAdd, hq, hne]

theorem convert_success_dst (env : ConvertEnv) (fs : List String) (dst : String)
    (hs : (convert env fs dst).1.success = true) : dst ∈ (convert env fs dst).2 := by
  revert hs
  unfold convert
  repeat' split
  all_goals simp [mem_fsAdd]

/-- C4 counterexample: a dry run finalizes the job `ok` with the predicted
destination path while creating no file, so the run ends with an `ok` row
whose `dst_path` does not exist on the filesystem. -/
theorem dry_run_ok_row_without_artifact :
    ((runPool wCfgDry wState0 [wTask]).ledger.map fun j => (j.status, j.dst_path)) =
      [(JobStatus.ok, some "/out/a.webp")] ∧
    (runPool wCfgDry wState0 [wTask]).fs = [] := by
  have hc : ∀ (i : FileInfo) (f p h : String),
      tryStartJob [] i f p h false 9 1 =
        ({ started := true, jobID := 1, skipReason := "", existingDstPath := "" },
         [newJob i f p h false 9 1]) := by
    intro i f p h
    rw [tryStartJob]
    simp
  show ((processFile wCfgDry wState0 wTask).ledger.map fun j => (j.status, j.dst_path)) = _ ∧
    (processFile wCfgDry wState0 wTask).fs = []
  rw [processFile]
  simp only [show wState0.ledger = [] from rfl, show wState0.nextId = 1 from rfl,
    show wTask.now = 9 from rfl, show (decide (wCfgDry.mode = Mode.dedup)) = false from rfl]
  rw [hc]
  decide

theorem processFile_state_cases (cfg : Config) (st : RunState) (t : FileTask)
    (hdry : cfg.dryRun = false) :
    ∃ i : FileInfo,
      (((processFile cfg st t).ledger = st.ledger ∧ (processFile cfg st t).fs = st.fs) ∨
       ((processFile cfg st t).ledger =
          (tryStartJob st.ledger i cfg.outputFormat.str cfg.outputParams cfg.outputParamsHash
            (decide (cfg.mode = Mode.dedup)) t.now st.nextId).2 ∧
        (processFile cfg st t).fs = st.fs) ∨
       (∃ e, (processFile cfg st t).ledger =
          finalizeJobFailed
            (tryStartJob st.ledger i cfg.outputFormat.str cfg.outputParams cfg.outputParamsHash
              (decide (cfg.mode = Mode.dedup)) t.now st.nextId).2
            (tryStartJob st.ledger i cfg.outputFormat.str cfg.outputParams cfg.outputParamsHash
              (decide (cfg.mode = Mode.dedup)) t.now st.nextId).1.jobID e t.now ∧
        (processFile cfg st t).fs = st.fs) ∨
       (∃ e, (processFile cfg st t).ledger =
          finalizeJobFailed
            (tryStartJob st.ledger i cfg.outputFormat.str cfg.outputParams cfg.outputParamsHash
              (decide (cfg.mode = Mode.dedup)) t.now st.nextId).2
            (tryStartJob st.ledger i cfg.outputFormat.str cfg.outputParams cfg.outputParamsHash
              (decide (cfg.mode = Mode.dedup)) t.now st.nextId).1.jobID e t.now ∧
        (processFile cfg st t).fs = (convert t.conv st.fs (dstPathFor cfg t)).2) ∨
       ((processFile cfg st t).ledger =
          (tryStartJob st.ledger i cfg.outputFormat.str cfg.outputParams cfg.outputParamsHash
            (decide (cfg.mode = Mode.dedup)) t.now st.nextId).2 ∧
        (processFile cfg st t).fs = (convert t.conv st.fs (dstPathFor cfg t)).2) ∨
       ((processFile cfg st t).ledger =
          finalizeJobOK
            (tryStartJob st.ledger i cfg.outputFormat.str cfg.outputParams cfg.outputParamsHash
              (decide (cfg.mode = Mode.dedup)) t.now st.nextId).2
            (tryStartJob st.ledger i cfg.outputFormat.str cfg.outputParams cfg.outputParamsHash
              (decide (cfg.mode = Mode.dedup)) t.now st.nextId).1.jobID
            (dstPathFor cfg t) t.now ∧
        (processFile cfg st t).fs = (convert t.conv st.fs (dstPathFor cfg t)).2 ∧
        (convert t.conv st.fs (dstPathFor cfg t)).1.success = true)) := by
  generalize hPF : processFile cfg st t = stPF
  rw [processFile] at hPF
  dsimp only at hPF
  repeat' split at hPF
  all_goals subst hPF
  all_goals first
    | exact ⟨⟨"", 0, 0, ""⟩, Or.inl ⟨rfl, rfl⟩⟩
    | exact ⟨_, Or.inr (Or.inl ⟨rfl, rfl⟩)⟩
    | exact ⟨_, Or.inr (Or.inr (Or.inl ⟨_, rfl, rfl⟩))⟩
    | exact ⟨_, Or.inr (Or.inr (Or.inr (Or.inl ⟨_, rfl, rfl⟩)))⟩
    | exact ⟨_, Or.inr (Or.inr (Or.inr (Or.inr (Or.inl ⟨rfl, rfl⟩))))⟩
    | exact ⟨_, Or.inr (Or.inr (Or.inr (Or.inr (Or.inr ⟨rfl, rfl, by
        have hns := ‹¬(!(convert t.conv st.fs (dstPathFor cfg t)).1.success) = true›
        simpa using hns⟩))))⟩
    | exact absurd (show cfg.dryRun = true by assumption)
        (by rw [hdry]; exact Bool.false_ne_true)

theorem processFile_preserves_okArtifacts (cfg : Config) (st : RunState) (t : FileTask)
    (safe : List String) (hdry : cfg.dryRun = false)
    (hd : dstPathFor cfg t ∈ safe) (ht : convTmpPath (dstPathFor cfg t) ∉ safe)
    (hinv : okArtifactsOn safe st) : okArtifactsOn safe (processFile cfg st t) := by
  obtain ⟨i, H⟩ := processFile_state_cases cfg st t hdry
  have hmemok : ∀ j ∈ (tryStartJob st.ledger i cfg.outputFormat.str cfg.outputParams
      cfg.outputParamsHash (decide (cfg.mode = Mode.dedup)) t.now st.nextId).2,
      j.status = .ok → j ∈ st.ledger :=
    fun j hj hok => tryStartJob_ok_mem_aux st.ledger.length st.ledger _ _ _ _ _ _ _
      le_rfl j hj hok
  intro j hj hok
  rcases H with ⟨h1, h2⟩ | ⟨h1, h2⟩ | ⟨e, h1, h2⟩ | ⟨e, h1, h2⟩ | ⟨h1, h2⟩ | ⟨h1, h2, hs⟩
  · rw [h1] at hj
    rw [h2]
    exact hinv j hj hok
  · rw [h1] at hj
    rw [h2]
    exact hinv j (hmemok j hj hok) hok
  · rw [h1] at hj
    rw [h2]
    exact hinv j (hmemok j (mem_finalizeJobFailed_ok hj hok) hok) hok
  · rw [h1] at hj
    rw [h2]
    obtain ⟨d, hdst, hfs, hsafe⟩ := hinv j (hmemok j (mem_finalizeJobFailed_ok hj hok) hok) hok
    exact ⟨d, hdst, convert_mem_fs _ _ _ d hfs fun heq => ht (heq ▸ hsafe), hsafe⟩
  · rw [h1] at hj
    rw [h2]
    obtain ⟨d, hdst, hfs, hsafe⟩ := hinv j (hmemok j hj hok) hok
    exact ⟨d, hdst, convert_mem_fs _ _ _ d hfs fun heq => ht (heq ▸ hsafe), hsafe⟩
  · rw [h1] at hj
    rw [h2]
    rcases mem_finalizeJobOK_ok hj with hj' | hjdst
    · obtain ⟨d, hdst, hfs, hsafe⟩ := hinv j (hmemok j hj' hok) hok
      exact ⟨d, hdst, convert_mem_fs _ _ _ d hfs fun heq => ht (heq ▸ hsafe), hsafe⟩
    · exact ⟨dstPathFor cfg t, hjdst, convert_success_dst _ _ _ hs, hd⟩

/-- C4 (amended): in a run with `dry_run = false` in which no job's sibling
temp path coincides with an expected destination path, every `ok` ledger
row at the end of the run records a destination that exists on the
filesystem; with `dry_run = true` the invariant fails because `finalize_ok`
records a predicted destination that was never created. -/
theorem run_ok_rows_have_artifacts (cfg : Config) (tasks : List FileTask) (st0 : RunState)
    (safe : List String) (hdry : cfg.dryRun = false)
    (hsafe : ∀ t ∈ tasks, dstPathFor cfg t ∈ safe)
    (htmp : ∀ t ∈ tasks, convTmpPath (dstPathFor cfg t) ∉ safe)
    (hinit : okArtifactsOn safe st0) :
    okArtifactsOn safe (runPool cfg st0 tasks) := by
  induction tasks generalizing st0 with
  | nil => exact hinit
  | cons t ts ih =>
    show okArtifactsOn safe (runPool cfg (processFile cfg st0 t) ts)
    exact ih (processFile cfg st0 t)
      (fun u hu => hsafe u (by simp [hu]))
      (fun u hu => htmp u (by simp [hu]))
      (processFile_preserves_okArtifacts cfg st0 t safe hdry
        (hsafe t (by simp)) (htmp t (by simp)) hinit)

/-- Witness for C4 at a concrete non-dry run. -/
theorem run_ok_rows_have_artifacts_witness :
    okArtifactsOn ["/out/a.webp"] (runPool wCfg wState0 [wTask]) := by
  apply run_ok_rows_have_artifacts wCfg [wTask] wState0 ["/out/a.webp"] rfl
  · intro u hu
    rw [List.mem_singleton] at hu
    subst hu
    decide
  · intro u hu
    rw [List.mem_singleton] at hu
    subst hu
    decide
  · intro j hj
    cases hj

end PhotoConverter
